import Mathlib

/-! # Kook: HTTP/1 matcher and parser

A shallow embedding of `pkg/protocols/http/http.go` (the request/response
matcher) and of `pkg/protocols/http/http_parser.go` (method validation and the
parse entry points), followed by the properties proved about them.

Conventions of the embedding:
* a `container/list` list is a Lean `List`, `Front()` being the head and
  `PushBack` appending at the end;
* a method with a pointer receiver that mutates the matcher returns the new
  matcher next to its Go result;
* a Go `nil` pointer result is `none`; the requests and responses handed to the
  matcher are non-nil, as in every caller and test;
* `http.ReadRequest` and `http.ReadResponse` belong to Go's standard library, not
  to this repository: the parse entry points take them as parameters.
-/

namespace Kook

/-! ## Data model -/

/-- Modelled from the spec: `types.SockKey` (package `pkg/ebpf/types` is not among
the sources), the identity `(pid, fd)` of a socket. Go's `==` on it compares the
two fields. -/
structure SockKey where
  Pid : Nat
  Fd : Nat
deriving DecidableEq, Repr

/-- The fields of Go's `http.Request` that this package reads
(`Proto`, `Method`, `RequestURI`, `Header`) and its body. `Header` is `none` for a
nil map; a map is listed as its keys with their values. -/
structure HTTPRecord where
  Proto : String
  Method : String
  RequestURI : String
  Header : Option (List (String × List String))
  Body : List Nat
deriving DecidableEq, Repr

/-- The fields of Go's `http.Response` that this package reads. -/
structure HTTPRespRecord where
  Proto : String
  StatusCode : Int
  Header : Option (List (String × List String))
  Body : List Nat
deriving DecidableEq, Repr

/-- Go: `type HTTPRequest struct { Record *http.Request }`. -/
structure HTTPRequest where
  Record : HTTPRecord
deriving DecidableEq, Repr

/-- Go: `type HTTPResponse struct { Record *http.Response }`. -/
structure HTTPResponse where
  Record : HTTPRespRecord
deriving DecidableEq, Repr

/-- Modelled from the spec: `protocols.Request` (package `pkg/protocols` is not
among the sources): a parsed request record tagged with the SockKey it was
observed on, as the matcher and its tests use it. -/
structure Request where
  SockKey : SockKey
  Record : HTTPRequest
deriving DecidableEq, Repr

/-- Modelled from the spec: `protocols.Response`, the response counterpart of
`Request`. -/
structure Response where
  SockKey : SockKey
  Record : HTTPResponse
deriving DecidableEq, Repr

/-- Modelled from the spec: the result of `protocols.ProtoMessage(req, resp)`
(package `pkg/protocols` is not among the sources), the pair of a request and the
response matched with it. It is never nil. -/
structure ProtoMessage where
  req : Request
  resp : Response
deriving DecidableEq, Repr

/-! ## The matcher (`http.go`) -/

/-- Go: `type HTTPMatcher struct { reqQueue, respQueue *list.List }`. -/
structure HTTPMatcher where
  reqQueue : List Request
  respQueue : List Response
deriving DecidableEq, Repr

/-- Go: `NewHTTPMatcher`; both queues are fresh empty lists. -/
def NewHTTPMatcher : HTTPMatcher :=
  { reqQueue := [], respQueue := [] }

/-- The loop shared by `findResp` and `findReq`:
`for e := q.Front(); e != nil; e = e.Next() { if hit(e.Value) { return q.Remove(e) } }; return nil`.
The result is the removed value (or `none`) and the list as the loop leaves it. -/
def scanRemove {α : Type} (hit : α → Bool) : List α → Option α × List α
  | [] => (none, [])
  | e :: es =>
    if hit e then (some e, es)
    else ((scanRemove hit es).1, e :: (scanRemove hit es).2)

/-- Go: `findResp`; the first response of `respQueue` whose SockKey equals the
request's is removed and returned. -/
def HTTPMatcher.findResp (m : HTTPMatcher) (req : Request) : Option Response × HTTPMatcher :=
  let r := scanRemove (fun e : Response => decide (e.SockKey = req.SockKey)) m.respQueue
  (r.1, { m with respQueue := r.2 })

/-- Go: `findReq`; the first request of `reqQueue` whose SockKey equals the
response's is removed and returned. -/
def HTTPMatcher.findReq (m : HTTPMatcher) (resp : Response) : Option Request × HTTPMatcher :=
  let r := scanRemove (fun e : Request => decide (e.SockKey = resp.SockKey)) m.reqQueue
  (r.1, { m with reqQueue := r.2 })

/-- Go: `MatchRequest`; when `findResp` finds nothing the request is pushed at the
back of `reqQueue` and nil is returned, otherwise the pair is returned. -/
def HTTPMatcher.MatchRequest (m : HTTPMatcher) (req : Request) :
    Option ProtoMessage × HTTPMatcher :=
  match m.findResp req with
  | (none, m1) => (none, { m1 with reqQueue := m1.reqQueue ++ [req] })
  | (some resp, m1) => (some (ProtoMessage.mk req resp), m1)

/-- Go: `MatchResponse`; when `findReq` finds nothing the response is pushed at
the back of `respQueue` and nil is returned, otherwise the pair is returned. -/
def HTTPMatcher.MatchResponse (m : HTTPMatcher) (resp : Response) :
    Option ProtoMessage × HTTPMatcher :=
  match m.findReq resp with
  | (none, m1) => (none, { m1 with respQueue := m1.respQueue ++ [resp] })
  | (some req, m1) => (some (ProtoMessage.mk req resp), m1)

/-- One call on a matcher. -/
inductive Call where
  | request (r : Request)
  | response (s : Response)
deriving DecidableEq, Repr

/-- The SockKey of the message a call carries. -/
def Call.SockKey : Call → SockKey
  | .request r => r.SockKey
  | .response s => s.SockKey

/-- Performs one call. -/
def HTTPMatcher.step (m : HTTPMatcher) : Call → Option ProtoMessage × HTTPMatcher
  | .request r => m.MatchRequest r
  | .response s => m.MatchResponse s

/-- Performs a sequence of calls, first to last; the result is the non-nil
results in the order they were returned, and the final matcher. -/
def HTTPMatcher.run (m : HTTPMatcher) : List Call → List ProtoMessage × HTTPMatcher
  | [] => ([], m)
  | c :: cs =>
    ((m.step c).1.toList ++ ((m.step c).2.run cs).1, ((m.step c).2.run cs).2)

/-- The part of a matcher that concerns SockKey `k`: the queued messages of that
SockKey, in queue order. -/
def HTTPMatcher.restrict (k : SockKey) (m : HTTPMatcher) : HTTPMatcher :=
  { reqQueue := m.reqQueue.filter (fun e => decide (e.SockKey = k)),
    respQueue := m.respQueue.filter (fun e => decide (e.SockKey = k)) }

/-- The pairs of SockKey `k` among a sequence of returned pairs, in order. -/
def pairsOf (k : SockKey) (ps : List ProtoMessage) : List ProtoMessage :=
  ps.filter (fun p => decide (p.req.SockKey = k))

/-- The calls of a sequence that carry a message of SockKey `k`, in order. -/
def callsOf (k : SockKey) (cs : List Call) : List Call :=
  cs.filter (fun c => decide (c.SockKey = k))

/-- The requests of a call sequence, in order. -/
def requestsOf : List Call → List Request
  | [] => []
  | .request r :: cs => r :: requestsOf cs
  | .response _ :: cs => requestsOf cs

/-- The responses of a call sequence, in order. -/
def responsesOf : List Call → List Response
  | [] => []
  | .request _ :: cs => responsesOf cs
  | .response s :: cs => s :: responsesOf cs

/-- The positions, counted from `start`, at which a call sequence holds a request. -/
def reqPositionsFrom (start : Nat) : List Call → List Nat
  | [] => []
  | .request _ :: cs => start :: reqPositionsFrom (start + 1) cs
  | .response _ :: cs => reqPositionsFrom (start + 1) cs

/-- The positions, counted from `start`, at which a call sequence holds a response. -/
def respPositionsFrom (start : Nat) : List Call → List Nat
  | [] => []
  | .request _ :: cs => respPositionsFrom (start + 1) cs
  | .response _ :: cs => start :: respPositionsFrom (start + 1) cs

/-! ## The parser (`http_parser.go`) -/

/-- Go: `const h1ReaderBufSize = 4096`, the size of the two `bufio.Reader`s that
`NewHTTPParser` allocates. -/
def h1ReaderBufSize : Nat := 4096

/-- Go: `validMethod`; a `switch` on `req.Method` over the nine `http.Method...`
constants of net/http, whose values are the strings below. -/
def validMethod (req : HTTPRecord) : Bool :=
  match req.Method with
  | "GET" => true
  | "POST" => true
  | "PUT" => true
  | "DELETE" => true
  | "PATCH" => true
  | "HEAD" => true
  | "OPTIONS" => true
  | "CONNECT" => true
  | "TRACE" => true
  | _ => false

/-- Go: `ParseRequest`. The reader `p.reqReader` is reset onto `msg` and handed to
`http.ReadRequest`; that library function is the parameter `ReadRequest`, applied
to the reader's buffer size and to the bytes it reads from. The result is Go's
pair of the record slice (nil is `[]`) and the error (nil is `none`). -/
def ParseRequest (ReadRequest : Nat → List Nat → Except String HTTPRecord)
    (msg : List Nat) : List HTTPRequest × Option String :=
  match ReadRequest h1ReaderBufSize msg with
  | .error err => ([], some err)
  | .ok req =>
    if !validMethod req then
      ([], some ("invalid http method. got: " ++ req.Method))
    else
      ([{ Record := req }], none)

/-- Go: `ParseResponse`, with `http.ReadResponse` as the parameter `ReadResponse`. -/
def ParseResponse (ReadResponse : Nat → List Nat → Except String HTTPRespRecord)
    (msg : List Nat) : List HTTPResponse × Option String :=
  match ReadResponse h1ReaderBufSize msg with
  | .error err => ([], some err)
  | .ok resp => ([{ Record := resp }], none)

/-! ### Conversion to protobuf -/

namespace pb

/-- Modelled from the spec: `pb.HTTPHeader` of the generated package `api/v1`, which
is not among the sources; one header entry. -/
structure HTTPHeader where
  Key : String
  Value : String
deriving DecidableEq, Repr

/-- Modelled from the spec: `pb.HTTPRequest` of the generated package `api/v1`; the
recorded head of a request: protocol version, method, target URI, headers.
`Headers` is `none` for a nil slice. -/
structure HTTPRequest where
  Protocol : String
  Method : String
  Url : String
  Headers : Option (List HTTPHeader)
deriving DecidableEq, Repr

/-- Modelled from the spec: `pb.Request_Http`, the HTTP case of the request record. -/
structure Request_Http where
  Http : HTTPRequest
deriving DecidableEq, Repr

/-- Modelled from the spec: `pb.Request`. -/
structure Request where
  Record : Request_Http
deriving DecidableEq, Repr

end pb

/-- Go: `toProtobufHeader`; nil for a nil map, otherwise the slice built by the two
nested `range` loops, each `append` adding one entry at the end. The list given
for the map is the order in which `range` visits its keys. -/
def toProtobufHeader (header : Option (List (String × List String))) :
    Option (List pb.HTTPHeader) :=
  match header with
  | none => none
  | some h =>
    some (h.foldl
      (fun res kv => kv.2.foldl (fun acc v => acc ++ [{ Key := kv.1, Value := v }]) res) [])

/-- Go: `(*HTTPRequest).Protobuf`. -/
def HTTPRequest.Protobuf (r : HTTPRequest) : pb.Request :=
  { Record := { Http := {
      Protocol := r.Record.Proto,
      Method := r.Record.Method,
      Url := r.Record.RequestURI,
      Headers := toProtobufHeader r.Record.Header } } }

/-- A request record with two header keys, the second with two values, and a body. -/
def sampleHTTPRequest : HTTPRequest :=
  { Record := { Proto := "HTTP/1.1", Method := "POST", RequestURI := "/test/url",
                Header := some [("User-Agent", ["test-clinet/1.1"]), ("Accept", ["a", "b"])],
                Body := [49, 50, 51] } }

/-- The bytes of `http2.ClientPreface`, "PRI * HTTP/2.0\r\n\r\nSM\r\n\r\n". -/
def http2ClientPreface : List Nat :=
  [80, 82, 73, 32, 42, 32, 72, 84, 84, 80, 47, 50, 46, 48, 13, 10, 13, 10,
   83, 77, 13, 10, 13, 10]

/-- A reader that frames only the HTTP/2 client preface, the way the test
"HTTP/2 Preface" obtains its request: method `PRI`, target `*`, protocol
`HTTP/2.0`, no header. Everything else is a read error. -/
def prefaceOnlyReader (_ : Nat) (msg : List Nat) : Except String HTTPRecord :=
  if msg = http2ClientPreface then
    .ok { Proto := "HTTP/2.0", Method := "PRI", RequestURI := "*", Header := some [], Body := [] }
  else
    .error "malformed HTTP request"

/-- A reader that frames every input as a `GET /` request; used to exhibit an
accepted input. -/
def getOnlyReader (_ : Nat) (_ : List Nat) : Except String HTTPRecord :=
  .ok { Proto := "HTTP/1.1", Method := "GET", RequestURI := "/", Header := some [], Body := [] }

/-- A reader that frames every non-empty input as a `200` response and fails on the
empty input; used to exhibit both outcomes of `ParseResponse`. -/
def okOnlyRespReader (_ : Nat) (msg : List Nat) : Except String HTTPRespRecord :=
  if msg = [] then .error "unexpected EOF"
  else .ok { Proto := "HTTP/1.1", StatusCode := 200, Header := some [], Body := [] }

/-! ## Sample values -/

/-- An empty request record. -/
def emptyHTTPRequest : HTTPRequest :=
  { Record := { Proto := "", Method := "", RequestURI := "", Header := none, Body := [] } }

/-- An empty response record. -/
def emptyHTTPResponse : HTTPResponse :=
  { Record := { Proto := "", StatusCode := 0, Header := none, Body := [] } }

/-- A request observed on `SockKey{Pid: pid}` with `RequestURI` set to `tag`. -/
def sampleReq (pid : Nat) (tag : String) : Request :=
  { SockKey := { Pid := pid, Fd := 0 },
    Record := { Record := { emptyHTTPRequest.Record with RequestURI := tag } } }

/-- A response observed on `SockKey{Pid: pid}` with status code `code`. -/
def sampleResp (pid : Nat) (code : Int) : Response :=
  { SockKey := { Pid := pid, Fd := 0 },
    Record := { Record := { emptyHTTPResponse.Record with StatusCode := code } } }

/-- The `i`-th of a series of requests observed on `SockKey{Pid: 1, Fd: 7}`, told
apart by their target `/a...a` (`i` letters). -/
def numberedReq (i : Nat) : Request :=
  { SockKey := { Pid := 1, Fd := 7 },
    Record := { Record := { emptyHTTPRequest.Record with
      Method := "GET", RequestURI := String.mk ('/' :: List.replicate i 'a') } } }

/-! ## Lemmas on the scan -/

theorem scanRemove_split {α : Type} (hit : α → Bool) (pre : List α) (x : α) (post : List α)
    (hpre : ∀ y ∈ pre, hit y = false) (hx : hit x = true) :
    scanRemove hit (pre ++ x :: post) = (some x, pre ++ post) := by
  induction pre with
  | nil => simp [scanRemove, hx]
  | cons y ys ih =>
    have hy : hit y = false := hpre y (List.mem_cons_self _ _)
    have hys : ∀ z ∈ ys, hit z = false := fun z hz => hpre z (List.mem_cons_of_mem _ hz)
    simp [scanRemove, hy, ih hys]

theorem scanRemove_none {α : Type} (hit : α → Bool) (l : List α)
    (hl : ∀ y ∈ l, hit y = false) :
    scanRemove hit l = (none, l) := by
  induction l with
  | nil => rfl
  | cons y ys ih =>
    have hy : hit y = false := hl y (List.mem_cons_self _ _)
    have hys : ∀ z ∈ ys, hit z = false := fun z hz => hl z (List.mem_cons_of_mem _ hz)
    simp [scanRemove, hy, ih hys]

theorem scanRemove_isSome_iff {α : Type} (hit : α → Bool) (l : List α) :
    (scanRemove hit l).1.isSome = true ↔ ∃ y ∈ l, hit y = true := by
  induction l with
  | nil => simp [scanRemove]
  | cons y ys ih =>
    by_cases hy : hit y = true
    · simp [scanRemove, hy]
    · simp only [Bool.not_eq_true] at hy
      simp [scanRemove, hy, ih]

theorem scanRemove_hit {α : Type} (hit : α → Bool) (l : List α) (x : α)
    (h : (scanRemove hit l).1 = some x) : hit x = true := by
  induction l with
  | nil => simp [scanRemove] at h
  | cons y ys ih =>
    by_cases hy : hit y = true
    · simp [scanRemove, hy] at h
      exact h ▸ hy
    · simp only [Bool.not_eq_true] at hy
      simp only [scanRemove, hy] at h
      exact ih h


/-! ## Lemmas on call sequences -/

theorem reqPositionsFrom_ge (start : Nat) (cs : List Call) :
    ∀ a ∈ reqPositionsFrom start cs, start ≤ a := by
  induction cs generalizing start with
  | nil => simp [reqPositionsFrom]
  | cons c cs ih =>
    cases c with
    | request r =>
      intro a ha
      simp only [reqPositionsFrom, List.mem_cons] at ha
      rcases ha with rfl | ha
      · exact le_rfl
      · exact Nat.le_of_succ_le (ih (start + 1) a ha)
    | response s =>
      intro a ha
      simp only [reqPositionsFrom] at ha
      exact Nat.le_of_succ_le (ih (start + 1) a ha)

theorem reqPositionsFrom_length (start : Nat) (cs : List Call) :
    (reqPositionsFrom start cs).length = (requestsOf cs).length := by
  induction cs generalizing start with
  | nil => rfl
  | cons c cs ih => cases c <;> simp [reqPositionsFrom, requestsOf, ih]

theorem respPositionsFrom_length (start : Nat) (cs : List Call) :
    (respPositionsFrom start cs).length = (responsesOf cs).length := by
  induction cs generalizing start with
  | nil => rfl
  | cons c cs ih => cases c <;> simp [respPositionsFrom, responsesOf, ih]

theorem respPositionsFrom_ge (start : Nat) (cs : List Call) :
    ∀ b ∈ respPositionsFrom start cs, start ≤ b := by
  induction cs generalizing start with
  | nil => simp [respPositionsFrom]
  | cons c cs ih =>
    cases c with
    | request r =>
      intro b hb
      simp only [respPositionsFrom] at hb
      exact Nat.le_of_succ_le (ih (start + 1) b hb)
    | response s =>
      intro b hb
      simp only [respPositionsFrom, List.mem_cons] at hb
      rcases hb with rfl | hb
      · exact le_rfl
      · exact Nat.le_of_succ_le (ih (start + 1) b hb)

theorem requestsOf_requests_then_responses (rs : List Request) (ss : List Response) :
    requestsOf (rs.map Call.request ++ ss.map Call.response) = rs := by
  induction rs with
  | nil => induction ss with
    | nil => rfl
    | cons s ss ih => simpa [requestsOf] using ih
  | cons r rs ih => simpa [requestsOf] using ih

theorem responsesOf_requests_then_responses (rs : List Request) (ss : List Response) :
    responsesOf (rs.map Call.request ++ ss.map Call.response) = ss := by
  induction rs with
  | nil => induction ss with
    | nil => rfl
    | cons s ss ih => simpa [responsesOf] using ih
  | cons r rs ih => simpa [responsesOf] using ih

theorem reqPositionsFrom_requests_then_responses (rs : List Request) (ss : List Response)
    (start : Nat) :
    ∀ a ∈ reqPositionsFrom start (rs.map Call.request ++ ss.map Call.response),
      a < start + rs.length := by
  induction rs generalizing start with
  | nil =>
    have hnil : ∀ st, reqPositionsFrom st (ss.map Call.response) = [] := by
      induction ss with
      | nil => intro st; rfl
      | cons s ss ih => intro st; simpa [reqPositionsFrom] using ih (st + 1)
    intro a ha
    simp [hnil] at ha
  | cons r rs ih =>
    intro a ha
    simp only [List.map_cons, List.cons_append, reqPositionsFrom, List.mem_cons] at ha
    simp only [List.length_cons]
    rcases ha with rfl | ha
    · omega
    · have := ih (start + 1) a ha
      omega

theorem respPositionsFrom_requests_then_responses (rs : List Request) (ss : List Response)
    (start : Nat) :
    ∀ b ∈ respPositionsFrom start (rs.map Call.request ++ ss.map Call.response),
      start + rs.length ≤ b := by
  induction rs generalizing start with
  | nil =>
    intro b hb
    simpa using respPositionsFrom_ge start _ b hb
  | cons r rs ih =>
    intro b hb
    simp only [List.map_cons, List.cons_append, respPositionsFrom] at hb
    simp only [List.length_cons]
    have := ih (start + 1) b hb
    omega

theorem scanRemove_length {α : Type} (hit : α → Bool) (l : List α) :
    (scanRemove hit l).2.length + (scanRemove hit l).1.toList.length = l.length := by
  induction l with
  | nil => rfl
  | cons y ys ih =>
    by_cases hy : hit y = true
    · simp [scanRemove, hy]
    · simp only [Bool.not_eq_true] at hy
      simp only [scanRemove, hy, Bool.false_eq_true, if_false, List.length_cons]
      omega

theorem scanRemove_filter_same {α : Type} (hit : α → Bool) (l : List α) :
    scanRemove hit (l.filter hit) = ((scanRemove hit l).1, (scanRemove hit l).2.filter hit) := by
  induction l with
  | nil => rfl
  | cons y ys ih =>
    by_cases hy : hit y = true
    · simp [scanRemove, hy]
    · simp only [Bool.not_eq_true] at hy
      simp [scanRemove, hy, ih]

theorem scanRemove_filter_other {α : Type} (hit keep : α → Bool) (l : List α)
    (hdisj : ∀ x, hit x = true → keep x = false) :
    (scanRemove hit l).2.filter keep = l.filter keep := by
  induction l with
  | nil => rfl
  | cons y ys ih =>
    by_cases hy : hit y = true
    · simp [scanRemove, hy, hdisj y hy]
    · simp only [Bool.not_eq_true] at hy
      simp [scanRemove, hy, List.filter_cons, ih]

theorem scanRemove_mem {α : Type} (hit : α → Bool) (l : List α) :
    ∀ x ∈ (scanRemove hit l).2, x ∈ l := by
  induction l with
  | nil => simp [scanRemove]
  | cons y ys ih =>
    intro x hx
    by_cases hy : hit y = true
    · simp only [scanRemove, hy, if_true] at hx
      exact List.mem_cons_of_mem _ hx
    · simp only [Bool.not_eq_true] at hy
      simp only [scanRemove, hy, Bool.false_eq_true, if_false, List.mem_cons] at hx
      rcases hx with rfl | hx
      · exact List.mem_cons_self _ _
      · exact List.mem_cons_of_mem _ (ih x hx)

theorem scanRemove_none_all {α : Type} (hit : α → Bool) (l : List α)
    (h : (scanRemove hit l).1 = none) : ∀ y ∈ l, hit y = false := by
  intro y hy
  cases hh : hit y with
  | false => rfl
  | true =>
    have hs := (scanRemove_isSome_iff hit l).mpr ⟨y, hy, hh⟩
    rw [h] at hs
    simp at hs

theorem scanRemove_some_split {α : Type} (hit : α → Bool) (l : List α) (x : α)
    (h : (scanRemove hit l).1 = some x) :
    ∃ pre post, l = pre ++ x :: post ∧ (∀ y ∈ pre, hit y = false) ∧ hit x = true ∧
      (scanRemove hit l).2 = pre ++ post := by
  induction l with
  | nil => simp [scanRemove] at h
  | cons y ys ih =>
    by_cases hy : hit y = true
    · simp only [scanRemove, hy, if_true, Option.some.injEq] at h
      subst h
      exact ⟨[], ys, rfl, by simp, hy, by simp [scanRemove, hy]⟩
    · simp only [Bool.not_eq_true] at hy
      simp only [scanRemove, hy, Bool.false_eq_true, if_false] at h
      obtain ⟨pre, post, hl, hpre, hx, hrest⟩ := ih h
      refine ⟨y :: pre, post, by simp [hl], ?_, hx, ?_⟩
      · intro z hz
        rcases List.mem_cons.mp hz with rfl | hz
        · exact hy
        · exact hpre z hz
      · simp [scanRemove, hy, hrest]

/-! ## MatchRequest and MatchResponse, one call -/

theorem MatchRequest_eq (m : HTTPMatcher) (req : Request) :
    m.MatchRequest req =
      match scanRemove (fun e : Response => decide (e.SockKey = req.SockKey)) m.respQueue with
      | (none, q) => (none, { reqQueue := m.reqQueue ++ [req], respQueue := q })
      | (some resp, q) => (some (ProtoMessage.mk req resp), { reqQueue := m.reqQueue, respQueue := q }) := by
  simp only [HTTPMatcher.MatchRequest, HTTPMatcher.findResp]
  rcases h : scanRemove (fun e : Response => decide (e.SockKey = req.SockKey)) m.respQueue with ⟨o, q⟩
  cases o <;> rfl

theorem MatchResponse_eq (m : HTTPMatcher) (resp : Response) :
    m.MatchResponse resp =
      match scanRemove (fun e : Request => decide (e.SockKey = resp.SockKey)) m.reqQueue with
      | (none, q) => (none, { reqQueue := q, respQueue := m.respQueue ++ [resp] })
      | (some req, q) => (some (ProtoMessage.mk req resp), { reqQueue := q, respQueue := m.respQueue }) := by
  simp only [HTTPMatcher.MatchResponse, HTTPMatcher.findReq]
  rcases h : scanRemove (fun e : Request => decide (e.SockKey = resp.SockKey)) m.reqQueue with ⟨o, q⟩
  cases o <;> rfl

/-- C1, as stated, fails: with `respQueue` holding one response of SockKey
`{Pid: 2}`, `MatchRequest` of a request of SockKey `{Pid: 1}` does not pop the head
and pair it with the request; it returns nil, leaves `respQueue` as it is and
pushes the request on `reqQueue`. -/
theorem MatchRequest_head_counterexample :
    (HTTPMatcher.mk [] [sampleResp 2 200]).respQueue ≠ [] ∧
    (HTTPMatcher.mk [] [sampleResp 2 200]).MatchRequest (sampleReq 1 "/a")
      ≠ (some (ProtoMessage.mk (sampleReq 1 "/a") (sampleResp 2 200)), HTTPMatcher.mk [] []) ∧
    (HTTPMatcher.mk [] [sampleResp 2 200]).MatchRequest (sampleReq 1 "/a")
      = (none, HTTPMatcher.mk [sampleReq 1 "/a"] [sampleResp 2 200]) := by
  decide

/-- C1, amended: if `respQueue` holds a response whose SockKey equals
`req.SockKey`, `MatchRequest(req)` removes the first such response `R` (the head,
when the head has that SockKey) and returns the pair `(req, R)`, `reqQueue` being
untouched; if it holds none (in particular when it is empty), `req` is appended to
`reqQueue`, `respQueue` is untouched and nil is returned. -/
theorem MatchRequest_first_same_key (m : HTTPMatcher) (req : Request) :
    (∀ pre R post, m.respQueue = pre ++ R :: post →
        (∀ x ∈ pre, x.SockKey ≠ req.SockKey) → R.SockKey = req.SockKey →
        m.MatchRequest req
          = (some (ProtoMessage.mk req R), { reqQueue := m.reqQueue, respQueue := pre ++ post })) ∧
    (∀ R post, m.respQueue = R :: post → R.SockKey = req.SockKey →
        m.MatchRequest req
          = (some (ProtoMessage.mk req R), { reqQueue := m.reqQueue, respQueue := post })) ∧
    ((∀ x ∈ m.respQueue, x.SockKey ≠ req.SockKey) →
        m.MatchRequest req
          = (none, { reqQueue := m.reqQueue ++ [req], respQueue := m.respQueue })) ∧
    (m.respQueue = [] →
        m.MatchRequest req = (none, { reqQueue := m.reqQueue ++ [req], respQueue := [] })) := by
  have hsplit : ∀ pre R post, m.respQueue = pre ++ R :: post →
      (∀ x ∈ pre, x.SockKey ≠ req.SockKey) → R.SockKey = req.SockKey →
      m.MatchRequest req
        = (some (ProtoMessage.mk req R), { reqQueue := m.reqQueue, respQueue := pre ++ post }) := by
    intro pre R post hq hpre hR
    rw [MatchRequest_eq, hq,
      scanRemove_split _ pre R post (fun y hy => by simpa using hpre y hy) (by simpa using hR)]
  have hnone : (∀ x ∈ m.respQueue, x.SockKey ≠ req.SockKey) →
      m.MatchRequest req
        = (none, { reqQueue := m.reqQueue ++ [req], respQueue := m.respQueue }) := by
    intro hall
    rw [MatchRequest_eq, scanRemove_none _ _ (fun y hy => by simpa using hall y hy)]
  refine ⟨hsplit, ?_, hnone, ?_⟩
  · intro R post hq hR
    simpa using hsplit [] R post (by simpa using hq) (by simp) hR
  · intro hq
    have h := hnone (by simp [hq])
    rw [hq] at h
    exact h

/-- C1, amended, at concrete inputs: a second-in-line response of the request's
SockKey is the one removed, and a request with no matching response is queued. -/
theorem MatchRequest_first_same_key_witness :
    (HTTPMatcher.mk [] [sampleResp 2 200, sampleResp 1 201, sampleResp 1 202]).MatchRequest
        (sampleReq 1 "/a")
      = (some (ProtoMessage.mk (sampleReq 1 "/a") (sampleResp 1 201)),
         HTTPMatcher.mk [] [sampleResp 2 200, sampleResp 1 202]) ∧
    (HTTPMatcher.mk [sampleReq 3 "/b"] [sampleResp 2 200]).MatchRequest (sampleReq 1 "/a")
      = (none, HTTPMatcher.mk [sampleReq 3 "/b", sampleReq 1 "/a"] [sampleResp 2 200]) :=
  ⟨(MatchRequest_first_same_key
      (HTTPMatcher.mk [] [sampleResp 2 200, sampleResp 1 201, sampleResp 1 202])
      (sampleReq 1 "/a")).1 [sampleResp 2 200] (sampleResp 1 201) [sampleResp 1 202] rfl
      (by decide) (by decide),
   (MatchRequest_first_same_key (HTTPMatcher.mk [sampleReq 3 "/b"] [sampleResp 2 200])
      (sampleReq 1 "/a")).2.2.1 (by decide)⟩

/-- C2, as stated, fails: with `reqQueue` holding one request of SockKey
`{Pid: 2}`, `MatchResponse` of a response of SockKey `{Pid: 1}` does not pop the
head and pair it with the response; it returns nil, leaves `reqQueue` as it is and
pushes the response on `respQueue`. -/
theorem MatchResponse_head_counterexample :
    (HTTPMatcher.mk [sampleReq 2 "/a"] []).reqQueue ≠ [] ∧
    (HTTPMatcher.mk [sampleReq 2 "/a"] []).MatchResponse (sampleResp 1 200)
      ≠ (some (ProtoMessage.mk (sampleReq 2 "/a") (sampleResp 1 200)), HTTPMatcher.mk [] []) ∧
    (HTTPMatcher.mk [sampleReq 2 "/a"] []).MatchResponse (sampleResp 1 200)
      = (none, HTTPMatcher.mk [sampleReq 2 "/a"] [sampleResp 1 200]) := by
  decide

/-- C2, amended: if `reqQueue` holds a request whose SockKey equals
`resp.SockKey`, `MatchResponse(resp)` removes the first such request `Q` (the head,
when the head has that SockKey) and returns the pair `(Q, resp)`, `respQueue` being
untouched; if it holds none (in particular when it is empty), `resp` is appended
to `respQueue`, `reqQueue` is untouched and nil is returned. -/
theorem MatchResponse_first_same_key (m : HTTPMatcher) (resp : Response) :
    (∀ pre Q post, m.reqQueue = pre ++ Q :: post →
        (∀ x ∈ pre, x.SockKey ≠ resp.SockKey) → Q.SockKey = resp.SockKey →
        m.MatchResponse resp
          = (some (ProtoMessage.mk Q resp), { reqQueue := pre ++ post, respQueue := m.respQueue })) ∧
    (∀ Q post, m.reqQueue = Q :: post → Q.SockKey = resp.SockKey →
        m.MatchResponse resp
          = (some (ProtoMessage.mk Q resp), { reqQueue := post, respQueue := m.respQueue })) ∧
    ((∀ x ∈ m.reqQueue, x.SockKey ≠ resp.SockKey) →
        m.MatchResponse resp
          = (none, { reqQueue := m.reqQueue, respQueue := m.respQueue ++ [resp] })) ∧
    (m.reqQueue = [] →
        m.MatchResponse resp = (none, { reqQueue := [], respQueue := m.respQueue ++ [resp] })) := by
  have hsplit : ∀ pre Q post, m.reqQueue = pre ++ Q :: post →
      (∀ x ∈ pre, x.SockKey ≠ resp.SockKey) → Q.SockKey = resp.SockKey →
      m.MatchResponse resp
        = (some (ProtoMessage.mk Q resp), { reqQueue := pre ++ post, respQueue := m.respQueue }) := by
    intro pre Q post hq hpre hQ
    rw [MatchResponse_eq, hq,
      scanRemove_split _ pre Q post (fun y hy => by simpa using hpre y hy) (by simpa using hQ)]
  have hnone : (∀ x ∈ m.reqQueue, x.SockKey ≠ resp.SockKey) →
      m.MatchResponse resp
        = (none, { reqQueue := m.reqQueue, respQueue := m.respQueue ++ [resp] }) := by
    intro hall
    rw [MatchResponse_eq, scanRemove_none _ _ (fun y hy => by simpa using hall y hy)]
  refine ⟨hsplit, ?_, hnone, ?_⟩
  · intro Q post hq hQ
    simpa using hsplit [] Q post (by simpa using hq) (by simp) hQ
  · intro hq
    have h := hnone (by simp [hq])
    rw [hq] at h
    exact h

/-- C2, amended, at concrete inputs: a second-in-line request of the response's
SockKey is the one removed, and a response with no matching request is queued. -/
theorem MatchResponse_first_same_key_witness :
    (HTTPMatcher.mk [sampleReq 2 "/a", sampleReq 1 "/b", sampleReq 1 "/c"] []).MatchResponse
        (sampleResp 1 200)
      = (some (ProtoMessage.mk (sampleReq 1 "/b") (sampleResp 1 200)),
         HTTPMatcher.mk [sampleReq 2 "/a", sampleReq 1 "/c"] []) ∧
    (HTTPMatcher.mk [sampleReq 2 "/a"] [sampleResp 3 404]).MatchResponse (sampleResp 1 200)
      = (none, HTTPMatcher.mk [sampleReq 2 "/a"] [sampleResp 3 404, sampleResp 1 200]) :=
  ⟨(MatchResponse_first_same_key
      (HTTPMatcher.mk [sampleReq 2 "/a", sampleReq 1 "/b", sampleReq 1 "/c"] [])
      (sampleResp 1 200)).1 [sampleReq 2 "/a"] (sampleReq 1 "/b") [sampleReq 1 "/c"] rfl
      (by decide) (by decide),
   (MatchResponse_first_same_key (HTTPMatcher.mk [sampleReq 2 "/a"] [sampleResp 3 404])
      (sampleResp 1 200)).2.2.1 (by decide)⟩

/-- C4: `MatchRequest(req)` returns a pair (non-nil) exactly when `respQueue` holds
a response whose SockKey equals `req.SockKey`; in particular it returns nil on an
empty `respQueue` and on a `respQueue` holding only responses of other SockKeys. -/
theorem MatchRequest_isSome_iff (m : HTTPMatcher) (req : Request) :
    ((m.MatchRequest req).1.isSome = true ↔ ∃ R ∈ m.respQueue, R.SockKey = req.SockKey) ∧
    (m.respQueue = [] → (m.MatchRequest req).1 = none) ∧
    ((∀ R ∈ m.respQueue, R.SockKey ≠ req.SockKey) → (m.MatchRequest req).1 = none) := by
  have hiff : (m.MatchRequest req).1.isSome = true ↔
      ∃ R ∈ m.respQueue, R.SockKey = req.SockKey := by
    have h := scanRemove_isSome_iff (fun e : Response => decide (e.SockKey = req.SockKey))
      m.respQueue
    rw [MatchRequest_eq]
    rcases hs : scanRemove (fun e : Response => decide (e.SockKey = req.SockKey)) m.respQueue
      with ⟨o, q⟩
    rw [hs] at h
    cases o <;> simpa using h
  have hno : (∀ R ∈ m.respQueue, R.SockKey ≠ req.SockKey) → (m.MatchRequest req).1 = none := by
    intro hall
    cases hr : (m.MatchRequest req).1 with
    | none => rfl
    | some p =>
      obtain ⟨R, hR, hk⟩ := hiff.mp (by simp [hr])
      exact absurd hk (hall R hR)
  exact ⟨hiff, fun hq => hno (by simp [hq]), hno⟩

/-- C4 at the three inputs of `TestHTTPMatcher_MatchRequest`: a response of the
same SockKey gives a pair; an empty queue and a queue of another SockKey give nil. -/
theorem MatchRequest_isSome_iff_witness :
    ((HTTPMatcher.mk [] [sampleResp 1 200]).MatchRequest (sampleReq 1 "/a")).1.isSome = true ∧
    ((HTTPMatcher.mk [] []).MatchRequest (sampleReq 1 "/a")).1 = none ∧
    ((HTTPMatcher.mk [] [sampleResp 2 200]).MatchRequest (sampleReq 1 "/a")).1 = none :=
  ⟨(MatchRequest_isSome_iff (HTTPMatcher.mk [] [sampleResp 1 200]) (sampleReq 1 "/a")).1.mpr
      ⟨sampleResp 1 200, by decide, by decide⟩,
   (MatchRequest_isSome_iff (HTTPMatcher.mk [] []) (sampleReq 1 "/a")).2.1 rfl,
   (MatchRequest_isSome_iff (HTTPMatcher.mk [] [sampleResp 2 200]) (sampleReq 1 "/a")).2.2
      (by decide)⟩

/-- C5: `MatchResponse(resp)` returns a pair (non-nil) exactly when `reqQueue` holds
a request whose SockKey equals `resp.SockKey`; in particular it returns nil on an
empty `reqQueue` and on a `reqQueue` holding only requests of other SockKeys. -/
theorem MatchResponse_isSome_iff (m : HTTPMatcher) (resp : Response) :
    ((m.MatchResponse resp).1.isSome = true ↔ ∃ Q ∈ m.reqQueue, Q.SockKey = resp.SockKey) ∧
    (m.reqQueue = [] → (m.MatchResponse resp).1 = none) ∧
    ((∀ Q ∈ m.reqQueue, Q.SockKey ≠ resp.SockKey) → (m.MatchResponse resp).1 = none) := by
  have hiff : (m.MatchResponse resp).1.isSome = true ↔
      ∃ Q ∈ m.reqQueue, Q.SockKey = resp.SockKey := by
    have h := scanRemove_isSome_iff (fun e : Request => decide (e.SockKey = resp.SockKey))
      m.reqQueue
    rw [MatchResponse_eq]
    rcases hs : scanRemove (fun e : Request => decide (e.SockKey = resp.SockKey)) m.reqQueue
      with ⟨o, q⟩
    rw [hs] at h
    cases o <;> simpa using h
  have hno : (∀ Q ∈ m.reqQueue, Q.SockKey ≠ resp.SockKey) → (m.MatchResponse resp).1 = none := by
    intro hall
    cases hr : (m.MatchResponse resp).1 with
    | none => rfl
    | some p =>
      obtain ⟨Q, hQ, hk⟩ := hiff.mp (by simp [hr])
      exact absurd hk (hall Q hQ)
  exact ⟨hiff, fun hq => hno (by simp [hq]), hno⟩

/-- C5 at the three inputs of `TestHTTPMatcher_MatchResponse`: a request of the
same SockKey gives a pair; an empty queue and a queue of another SockKey give nil. -/
theorem MatchResponse_isSome_iff_witness :
    ((HTTPMatcher.mk [sampleReq 1 "/a"] []).MatchResponse (sampleResp 1 200)).1.isSome = true ∧
    ((HTTPMatcher.mk [] []).MatchResponse (sampleResp 1 200)).1 = none ∧
    ((HTTPMatcher.mk [sampleReq 2 "/a"] []).MatchResponse (sampleResp 1 200)).1 = none :=
  ⟨(MatchResponse_isSome_iff (HTTPMatcher.mk [sampleReq 1 "/a"] []) (sampleResp 1 200)).1.mpr
      ⟨sampleReq 1 "/a", by decide, by decide⟩,
   (MatchResponse_isSome_iff (HTTPMatcher.mk [] []) (sampleResp 1 200)).2.1 rfl,
   (MatchResponse_isSome_iff (HTTPMatcher.mk [sampleReq 2 "/a"] []) (sampleResp 1 200)).2.2
      (by decide)⟩

/-! ## Nothing is discarded -/

theorem step_reqQueue_length (m : HTTPMatcher) (c : Call) :
    (m.step c).2.reqQueue.length + (m.step c).1.toList.length
      = m.reqQueue.length + (requestsOf [c]).length := by
  cases c with
  | request r =>
    simp only [HTTPMatcher.step, MatchRequest_eq, requestsOf]
    rcases hs : scanRemove (fun e : Response => decide (e.SockKey = r.SockKey)) m.respQueue
      with ⟨o, q⟩
    cases o <;> simp
  | response s =>
    have h := scanRemove_length (fun e : Request => decide (e.SockKey = s.SockKey)) m.reqQueue
    simp only [HTTPMatcher.step, MatchResponse_eq, requestsOf]
    rcases hs : scanRemove (fun e : Request => decide (e.SockKey = s.SockKey)) m.reqQueue
      with ⟨o, q⟩
    rw [hs] at h
    cases o <;> simpa using h

theorem step_respQueue_length (m : HTTPMatcher) (c : Call) :
    (m.step c).2.respQueue.length + (m.step c).1.toList.length
      = m.respQueue.length + (responsesOf [c]).length := by
  cases c with
  | request r =>
    have h := scanRemove_length (fun e : Response => decide (e.SockKey = r.SockKey)) m.respQueue
    simp only [HTTPMatcher.step, MatchRequest_eq, responsesOf]
    rcases hs : scanRemove (fun e : Response => decide (e.SockKey = r.SockKey)) m.respQueue
      with ⟨o, q⟩
    rw [hs] at h
    cases o <;> simpa using h
  | response s =>
    simp only [HTTPMatcher.step, MatchResponse_eq, responsesOf]
    rcases hs : scanRemove (fun e : Request => decide (e.SockKey = s.SockKey)) m.reqQueue
      with ⟨o, q⟩
    cases o <;> simp

theorem run_reqQueue_length (cs : List Call) : ∀ m : HTTPMatcher,
    (m.run cs).2.reqQueue.length + (m.run cs).1.length
      = m.reqQueue.length + (requestsOf cs).length := by
  induction cs with
  | nil => intro m; simp [HTTPMatcher.run, requestsOf]
  | cons c cs ih =>
    intro m
    have h1 := step_reqQueue_length m c
    have h2 := ih (m.step c).2
    have h3 : (requestsOf (c :: cs)).length = (requestsOf [c]).length + (requestsOf cs).length := by
      cases c <;> simp [requestsOf]; omega
    simp only [HTTPMatcher.run, List.length_append]
    omega

theorem run_respQueue_length (cs : List Call) : ∀ m : HTTPMatcher,
    (m.run cs).2.respQueue.length + (m.run cs).1.length
      = m.respQueue.length + (responsesOf cs).length := by
  induction cs with
  | nil => intro m; simp [HTTPMatcher.run, responsesOf]
  | cons c cs ih =>
    intro m
    have h1 := step_respQueue_length m c
    have h2 := ih (m.step c).2
    have h3 : (responsesOf (c :: cs)).length
        = (responsesOf [c]).length + (responsesOf cs).length := by
      cases c <;> simp [responsesOf]; omega
    simp only [HTTPMatcher.run, List.length_append]
    omega

theorem run_requests_only (rs : List Request) : ∀ q : List Request,
    (HTTPMatcher.mk q []).run (rs.map Call.request) = ([], HTTPMatcher.mk (q ++ rs) []) := by
  induction rs with
  | nil => intro q; simp [HTTPMatcher.run]
  | cons r rs ih =>
    intro q
    have hstep : (HTTPMatcher.mk q []).step (Call.request r)
        = (none, HTTPMatcher.mk (q ++ [r]) []) := by
      simp [HTTPMatcher.step, MatchRequest_eq, scanRemove]
    simp only [List.map_cons, HTTPMatcher.run, hstep, ih]
    simp

theorem run_responses_only (ss : List Response) : ∀ q : List Response,
    (HTTPMatcher.mk [] q).run (ss.map Call.response) = ([], HTTPMatcher.mk [] (q ++ ss)) := by
  induction ss with
  | nil => intro q; simp [HTTPMatcher.run]
  | cons s ss ih =>
    intro q
    have hstep : (HTTPMatcher.mk [] q).step (Call.response s)
        = (none, HTTPMatcher.mk [] (q ++ [s])) := by
      simp [HTTPMatcher.step, MatchResponse_eq, scanRemove]
    simp only [List.map_cons, HTTPMatcher.run, hstep, ih]
    simp

/-- C6, as stated, fails: 65 calls of `MatchRequest` on a fresh matcher, with
requests of one SockKey, leave 65 elements in `reqQueue`, more than the cap of 64,
and the oldest request is still at the front. -/
theorem reqQueue_cap_counterexample :
    64 < (NewHTTPMatcher.run
      ((List.map numberedReq (List.range 65)).map Call.request)).2.reqQueue.length ∧
    (NewHTTPMatcher.run
      ((List.map numberedReq (List.range 65)).map Call.request)).2.reqQueue.head?
        = some (numberedReq 0) := by
  have h := run_requests_only (List.map numberedReq (List.range 65)) []
  simp only [List.nil_append] at h
  rw [show NewHTTPMatcher = HTTPMatcher.mk [] [] from rfl, h]
  constructor
  · simp
  · rfl

/-- C6, amended: the queues have no cap and nothing is ever discarded. After every
sequence of calls on a fresh matcher, the length of `reqQueue` plus the number of
pairs returned is the number of `MatchRequest` calls, and the length of `respQueue`
plus the number of pairs returned is the number of `MatchResponse` calls; requests
(responses) that meet no counterpart all stay queued, in arrival order, however
many they are. -/
theorem queues_keep_every_unmatched_message :
    (∀ cs : List Call,
      (NewHTTPMatcher.run cs).2.reqQueue.length + (NewHTTPMatcher.run cs).1.length
        = (requestsOf cs).length ∧
      (NewHTTPMatcher.run cs).2.respQueue.length + (NewHTTPMatcher.run cs).1.length
        = (responsesOf cs).length) ∧
    (∀ rs : List Request,
      NewHTTPMatcher.run (rs.map Call.request) = ([], { reqQueue := rs, respQueue := [] })) ∧
    (∀ ss : List Response,
      NewHTTPMatcher.run (ss.map Call.response) = ([], { reqQueue := [], respQueue := ss })) := by
  refine ⟨fun cs => ⟨?_, ?_⟩, fun rs => ?_, fun ss => ?_⟩
  · simpa [NewHTTPMatcher] using run_reqQueue_length cs NewHTTPMatcher
  · simpa [NewHTTPMatcher] using run_respQueue_length cs NewHTTPMatcher
  · simpa [NewHTTPMatcher] using run_requests_only rs []
  · simpa [NewHTTPMatcher] using run_responses_only ss []

/-! ## One SockKey: FIFO pairing -/

/-- The pairing of a call sequence on one SockKey, started with `q` pending
requests and no pending response, when every response comes after the request it
answers. -/
theorem run_single_key (k : SockKey) (cs : List Call) :
    ∀ (q : List Request) (start : Nat),
      (∀ c ∈ cs, c.SockKey = k) → (∀ r ∈ q, r.SockKey = k) →
      q.length + (requestsOf cs).length = (responsesOf cs).length →
      (∀ i a b : Nat, (reqPositionsFrom start cs)[i]? = some a →
        (respPositionsFrom start cs)[i + q.length]? = some b → a < b) →
      (HTTPMatcher.mk q []).run cs
        = (List.zipWith ProtoMessage.mk (q ++ requestsOf cs) (responsesOf cs), NewHTTPMatcher) := by
  induction cs with
  | nil =>
    intro q start _ _ hlen _
    have hq : q = [] := by
      simpa [requestsOf, responsesOf] using hlen
    subst hq
    rfl
  | cons c cs ih =>
    intro q start hkey hq hlen hpos
    have hkeys : ∀ c1 ∈ cs, c1.SockKey = k := fun c1 h1 => hkey c1 (List.mem_cons_of_mem _ h1)
    have hc : c.SockKey = k := hkey c (List.mem_cons_self _ _)
    cases c with
    | request r =>
      have hstep : (HTTPMatcher.mk q []).step (Call.request r)
          = (none, HTTPMatcher.mk (q ++ [r]) []) := by
        simp [HTTPMatcher.step, MatchRequest_eq, scanRemove]
      have hq1 : ∀ x ∈ q ++ [r], x.SockKey = k := by
        intro x hx
        rcases List.mem_append.mp hx with hx | hx
        · exact hq x hx
        · simp only [List.mem_singleton] at hx
          subst hx
          exact hc
      have hlen1 : (q ++ [r]).length + (requestsOf cs).length = (responsesOf cs).length := by
        simp only [requestsOf, responsesOf, List.length_cons] at hlen
        simp only [List.length_append, List.length_singleton]
        omega
      have hpos1 : ∀ i a b, (reqPositionsFrom (start + 1) cs)[i]? = some a →
          (respPositionsFrom (start + 1) cs)[i + (q ++ [r]).length]? = some b → a < b := by
        intro i a b ha hb
        apply hpos (i + 1) a b
        · simpa [reqPositionsFrom] using ha
        · have hidx : i + (q ++ [r]).length = i + 1 + q.length := by
            simp only [List.length_append, List.length_singleton]
            omega
          rw [hidx] at hb
          simpa [respPositionsFrom] using hb
      have hrec := ih (q ++ [r]) (start + 1) hkeys hq1 hlen1 hpos1
      simp only [HTTPMatcher.run, hstep, hrec, requestsOf, responsesOf]
      simp
    | response s =>
      cases q with
      | nil =>
        exfalso
        simp only [requestsOf, responsesOf, List.length_cons, List.length_nil] at hlen
        have hne : 0 < (reqPositionsFrom (start + 1) cs).length := by
          rw [reqPositionsFrom_length]
          omega
        have hmem : (reqPositionsFrom (start + 1) cs)[0] ∈ reqPositionsFrom (start + 1) cs :=
          List.getElem_mem _
        have hge := reqPositionsFrom_ge (start + 1) cs _ hmem
        have hlt := hpos 0 ((reqPositionsFrom (start + 1) cs)[0]) start
          (by simp [reqPositionsFrom, List.getElem?_eq_getElem hne])
          (by simp [respPositionsFrom])
        omega
      | cons r0 q1 =>
        have hr0 : r0.SockKey = k := hq r0 (List.mem_cons_self _ _)
        have hstep : (HTTPMatcher.mk (r0 :: q1) []).step (Call.response s)
            = (some (ProtoMessage.mk r0 s), HTTPMatcher.mk q1 []) := by
          have hs : s.SockKey = k := hc
          simp [HTTPMatcher.step, MatchResponse_eq, scanRemove, hr0, hs]
        have hq1 : ∀ x ∈ q1, x.SockKey = k := fun x hx => hq x (List.mem_cons_of_mem _ hx)
        have hlen1 : q1.length + (requestsOf cs).length = (responsesOf cs).length := by
          simp only [requestsOf, responsesOf, List.length_cons] at hlen
          omega
        have hpos1 : ∀ i a b, (reqPositionsFrom (start + 1) cs)[i]? = some a →
            (respPositionsFrom (start + 1) cs)[i + q1.length]? = some b → a < b := by
          intro i a b ha hb
          apply hpos i a b
          · simpa [reqPositionsFrom] using ha
          · have hidx : i + (r0 :: q1).length = (i + q1.length) + 1 := by
              simp only [List.length_cons]
              omega
            rw [hidx]
            simpa [respPositionsFrom] using hb
        have hrec := ih q1 (start + 1) hkeys hq1 hlen1 hpos1
        simp only [HTTPMatcher.run, hstep, hrec, requestsOf, responsesOf]
        simp

/-- C3: requests `r1..rn` and responses `s1..sn` of one SockKey `k`, fed to a fresh
matcher as the call sequence `cs` in which the requests keep their order
(`requestsOf cs = rs`), the responses keep their order (`responsesOf cs = ss`) and
the i-th response stands after the i-th request, make the calls return exactly
the pairs `(r1,s1), ..., (rn,sn)` in that order and leave both queues empty. The
second part is the case of all requests followed by all responses. -/
theorem fifo_pairs_single_key :
    (∀ (k : SockKey) (rs : List Request) (ss : List Response) (cs : List Call),
      requestsOf cs = rs → responsesOf cs = ss → rs.length = ss.length →
      (∀ r ∈ rs, r.SockKey = k) → (∀ s ∈ ss, s.SockKey = k) →
      (∀ i a b : Nat, (reqPositionsFrom 0 cs)[i]? = some a →
        (respPositionsFrom 0 cs)[i]? = some b → a < b) →
      NewHTTPMatcher.run cs
        = (List.zipWith ProtoMessage.mk rs ss, { reqQueue := [], respQueue := [] })) ∧
    (∀ (k : SockKey) (rs : List Request) (ss : List Response),
      rs.length = ss.length →
      (∀ r ∈ rs, r.SockKey = k) → (∀ s ∈ ss, s.SockKey = k) →
      NewHTTPMatcher.run (rs.map Call.request ++ ss.map Call.response)
        = (List.zipWith ProtoMessage.mk rs ss, { reqQueue := [], respQueue := [] })) := by
  have hgen : ∀ (k : SockKey) (rs : List Request) (ss : List Response) (cs : List Call),
      requestsOf cs = rs → responsesOf cs = ss → rs.length = ss.length →
      (∀ r ∈ rs, r.SockKey = k) → (∀ s ∈ ss, s.SockKey = k) →
      (∀ i a b : Nat, (reqPositionsFrom 0 cs)[i]? = some a →
        (respPositionsFrom 0 cs)[i]? = some b → a < b) →
      NewHTTPMatcher.run cs
        = (List.zipWith ProtoMessage.mk rs ss, { reqQueue := [], respQueue := [] }) := by
    intro k rs ss cs hrs hss hlen hkr hks hafter
    subst hrs
    subst hss
    have hkey : ∀ c ∈ cs, c.SockKey = k := by
      intro c hc
      cases c with
      | request r =>
        apply hkr r
        clear hlen hkr hks hafter
        induction cs with
        | nil => simp at hc
        | cons d ds ih =>
          rcases List.mem_cons.mp hc with h | h
          · subst h
            simp [requestsOf]
          · cases d <;> simp [requestsOf, ih h]
      | response s =>
        apply hks s
        clear hlen hkr hks hafter
        induction cs with
        | nil => simp at hc
        | cons d ds ih =>
          rcases List.mem_cons.mp hc with h | h
          · subst h
            simp [responsesOf]
          · cases d <;> simp [responsesOf, ih h]
    have h := run_single_key k cs [] 0 hkey (by simp) (by simpa using hlen)
      (by simpa using hafter)
    simpa [NewHTTPMatcher] using h
  refine ⟨hgen, ?_⟩
  intro k rs ss hlen hkr hks
  apply hgen k rs ss _ (requestsOf_requests_then_responses rs ss)
    (responsesOf_requests_then_responses rs ss) hlen hkr hks
  intro i a b ha hb
  have h1 := reqPositionsFrom_requests_then_responses rs ss 0 a (List.getElem?_mem ha)
  have h2 := respPositionsFrom_requests_then_responses rs ss 0 b (List.getElem?_mem hb)
  omega

/-- C3 at concrete inputs: an interleaving `r1 s1 r2 r3 s2 s3` on SockKey `{Pid: 1}`,
and the pipelined scenario of two requests followed by two responses. -/
theorem fifo_pairs_single_key_witness :
    NewHTTPMatcher.run
        [Call.request (sampleReq 1 "/a"), Call.response (sampleResp 1 200),
         Call.request (sampleReq 1 "/b"), Call.request (sampleReq 1 "/c"),
         Call.response (sampleResp 1 201), Call.response (sampleResp 1 202)]
      = ([ProtoMessage.mk (sampleReq 1 "/a") (sampleResp 1 200),
          ProtoMessage.mk (sampleReq 1 "/b") (sampleResp 1 201),
          ProtoMessage.mk (sampleReq 1 "/c") (sampleResp 1 202)],
         { reqQueue := [], respQueue := [] }) ∧
    NewHTTPMatcher.run
        [Call.request (sampleReq 1 "/a"), Call.request (sampleReq 1 "/b"),
         Call.response (sampleResp 1 200), Call.response (sampleResp 1 201)]
      = ([ProtoMessage.mk (sampleReq 1 "/a") (sampleResp 1 200),
          ProtoMessage.mk (sampleReq 1 "/b") (sampleResp 1 201)],
         { reqQueue := [], respQueue := [] }) :=
  ⟨fifo_pairs_single_key.1 { Pid := 1, Fd := 0 }
      [sampleReq 1 "/a", sampleReq 1 "/b", sampleReq 1 "/c"]
      [sampleResp 1 200, sampleResp 1 201, sampleResp 1 202]
      [Call.request (sampleReq 1 "/a"), Call.response (sampleResp 1 200),
       Call.request (sampleReq 1 "/b"), Call.request (sampleReq 1 "/c"),
       Call.response (sampleResp 1 201), Call.response (sampleResp 1 202)]
      rfl rfl rfl (by decide) (by decide)
      (by
        intro i a b ha hb
        rcases i with _ | _ | _ | i <;>
          simp [reqPositionsFrom, respPositionsFrom] at ha hb <;> omega),
   fifo_pairs_single_key.2 { Pid := 1, Fd := 0 }
      [sampleReq 1 "/a", sampleReq 1 "/b"] [sampleResp 1 200, sampleResp 1 201]
      rfl (by decide) (by decide)⟩

/-! ## Isolation of SockKeys -/

theorem step_pair_keys (m : HTTPMatcher) (c : Call) :
    ∀ p ∈ (m.step c).1, p.req.SockKey = c.SockKey ∧ p.resp.SockKey = c.SockKey := by
  intro p hp
  cases c with
  | request r =>
    simp only [HTTPMatcher.step, MatchRequest_eq] at hp
    rcases hs : scanRemove (fun e : Response => decide (e.SockKey = r.SockKey)) m.respQueue
      with ⟨o, q⟩
    rw [hs] at hp
    cases o with
    | none => simp at hp
    | some R =>
      have hR := scanRemove_hit _ m.respQueue R (by rw [hs])
      simp only [Option.mem_def, Option.some.injEq] at hp
      subst hp
      exact ⟨rfl, by simpa using hR⟩
  | response s =>
    simp only [HTTPMatcher.step, MatchResponse_eq] at hp
    rcases hs : scanRemove (fun e : Request => decide (e.SockKey = s.SockKey)) m.reqQueue
      with ⟨o, q⟩
    rw [hs] at hp
    cases o with
    | none => simp at hp
    | some Q =>
      have hQ := scanRemove_hit _ m.reqQueue Q (by rw [hs])
      simp only [Option.mem_def, Option.some.injEq] at hp
      subst hp
      exact ⟨by simpa using hQ, rfl⟩

theorem step_restrict_same (k : SockKey) (m : HTTPMatcher) (c : Call) (hc : c.SockKey = k) :
    (m.restrict k).step c = ((m.step c).1, (m.step c).2.restrict k) := by
  cases c with
  | request r =>
    have hr : r.SockKey = k := hc
    subst hr
    have h := scanRemove_filter_same (fun e : Response => decide (e.SockKey = r.SockKey))
      m.respQueue
    simp only [HTTPMatcher.step, MatchRequest_eq, HTTPMatcher.restrict, h]
    rcases hs : scanRemove (fun e : Response => decide (e.SockKey = r.SockKey)) m.respQueue
      with ⟨o, q⟩
    cases o <;> simp [List.filter_append]
  | response s =>
    have hr : s.SockKey = k := hc
    subst hr
    have h := scanRemove_filter_same (fun e : Request => decide (e.SockKey = s.SockKey))
      m.reqQueue
    simp only [HTTPMatcher.step, MatchResponse_eq, HTTPMatcher.restrict, h]
    rcases hs : scanRemove (fun e : Request => decide (e.SockKey = s.SockKey)) m.reqQueue
      with ⟨o, q⟩
    cases o <;> simp [List.filter_append]

theorem step_restrict_other (k : SockKey) (m : HTTPMatcher) (c : Call) (hc : c.SockKey ≠ k) :
    (m.step c).2.restrict k = m.restrict k := by
  cases c with
  | request r =>
    have hr : r.SockKey ≠ k := hc
    have h := scanRemove_filter_other (fun e : Response => decide (e.SockKey = r.SockKey))
      (fun e : Response => decide (e.SockKey = k)) m.respQueue
      (by intro x hx; simp at hx; simp [hx, hr])
    simp only [HTTPMatcher.step, MatchRequest_eq, HTTPMatcher.restrict]
    rcases hs : scanRemove (fun e : Response => decide (e.SockKey = r.SockKey)) m.respQueue
      with ⟨o, q⟩
    rw [hs] at h
    cases o <;> simp [List.filter_append, hr] <;> exact h
  | response s =>
    have hr : s.SockKey ≠ k := hc
    have h := scanRemove_filter_other (fun e : Request => decide (e.SockKey = s.SockKey))
      (fun e : Request => decide (e.SockKey = k)) m.reqQueue
      (by intro x hx; simp at hx; simp [hx, hr])
    simp only [HTTPMatcher.step, MatchResponse_eq, HTTPMatcher.restrict]
    rcases hs : scanRemove (fun e : Request => decide (e.SockKey = s.SockKey)) m.reqQueue
      with ⟨o, q⟩
    rw [hs] at h
    cases o <;> simp [List.filter_append, hr] <;> exact h

theorem run_restrict (k : SockKey) (cs : List Call) : ∀ m : HTTPMatcher,
    pairsOf k (m.run cs).1 = ((m.restrict k).run (callsOf k cs)).1 := by
  induction cs with
  | nil => intro m; rfl
  | cons c cs ih =>
    intro m
    by_cases hc : c.SockKey = k
    · have hkeep : (m.step c).1.toList.filter (fun p => decide (p.req.SockKey = k))
          = (m.step c).1.toList := by
        apply List.filter_eq_self.mpr
        intro p hp
        have := (step_pair_keys m c p (by simpa using hp)).1
        simp [this, hc]
      have hcalls : callsOf k (c :: cs) = c :: callsOf k cs := by
        simp [callsOf, hc]
      have hih := ih (m.step c).2
      simp only [pairsOf] at hih ⊢
      rw [hcalls]
      simp only [HTTPMatcher.run, List.filter_append, hkeep, step_restrict_same k m c hc, hih]
    · have hdrop : (m.step c).1.toList.filter (fun p => decide (p.req.SockKey = k)) = [] := by
        apply List.filter_eq_nil_iff.mpr
        intro p hp
        have := (step_pair_keys m c p (by simpa using hp)).1
        simp [this, hc]
      have hcalls : callsOf k (c :: cs) = callsOf k cs := by
        simp [callsOf, hc]
      have hih := ih (m.step c).2
      simp only [pairsOf] at hih ⊢
      rw [hcalls]
      simp only [HTTPMatcher.run, List.filter_append, hdrop, List.nil_append, hih,
        step_restrict_other k m c hc]

theorem run_pair_keys (cs : List Call) : ∀ m : HTTPMatcher,
    ∀ p ∈ (m.run cs).1, p.req.SockKey = p.resp.SockKey := by
  induction cs with
  | nil => intro m p hp; simp [HTTPMatcher.run] at hp
  | cons c cs ih =>
    intro m p hp
    simp only [HTTPMatcher.run, List.mem_append] at hp
    rcases hp with hp | hp
    · have h := step_pair_keys m c p (by simpa using hp)
      rw [h.1, h.2]
    · exact ih _ p hp

/-- C10: for every sequence of calls `cs` on a fresh matcher and every SockKey `k`,
the pairs of SockKey `k` that the calls return, in order, are the pairs that a fresh
matcher returns when it is fed only the calls of `cs` whose message has SockKey `k`;
and every returned pair holds a request and a response of equal SockKey. -/
theorem isolation_per_SockKey (cs : List Call) (k : SockKey) :
    pairsOf k (NewHTTPMatcher.run cs).1 = (NewHTTPMatcher.run (callsOf k cs)).1 ∧
    (∀ p ∈ (NewHTTPMatcher.run cs).1, p.req.SockKey = p.resp.SockKey) := by
  refine ⟨?_, run_pair_keys cs NewHTTPMatcher⟩
  have h := run_restrict k cs NewHTTPMatcher
  simpa [HTTPMatcher.restrict, NewHTTPMatcher] using h

/-- C10 at a concrete input: two connections interleaved; the pairs of `{Pid: 1}`
are those of the run restricted to `{Pid: 1}`. -/
theorem isolation_per_SockKey_witness :
    pairsOf { Pid := 1, Fd := 0 } (NewHTTPMatcher.run
        [Call.request (sampleReq 1 "/a"), Call.response (sampleResp 2 500),
         Call.request (sampleReq 2 "/x"), Call.request (sampleReq 1 "/b"),
         Call.response (sampleResp 1 200), Call.response (sampleResp 1 201)]).1
      = [ProtoMessage.mk (sampleReq 1 "/a") (sampleResp 1 200),
         ProtoMessage.mk (sampleReq 1 "/b") (sampleResp 1 201)] :=
  (isolation_per_SockKey
      [Call.request (sampleReq 1 "/a"), Call.response (sampleResp 2 500),
       Call.request (sampleReq 2 "/x"), Call.request (sampleReq 1 "/b"),
       Call.response (sampleResp 1 200), Call.response (sampleResp 1 201)]
      { Pid := 1, Fd := 0 }).1.trans (by decide)

/-! ## The parser -/

theorem validMethod_eq_true_iff (req : HTTPRecord) :
    validMethod req = true ↔
      req.Method ∈ ["GET", "POST", "PUT", "DELETE", "PATCH", "HEAD", "OPTIONS", "CONNECT", "TRACE"] := by
  unfold validMethod
  split <;> simp_all

/-- C7: `validMethod` is true exactly when the request's `Method` is one of the
nine strings GET, POST, PUT, DELETE, PATCH, HEAD, OPTIONS, CONNECT, TRACE, compared
byte for byte; every other string gives false, among them `PRI`, the empty string
and the lower-case `get`. -/
theorem validMethod_closed_set :
    (∀ req : HTTPRecord, validMethod req = true ↔
      (req.Method = "GET" ∨ req.Method = "POST" ∨ req.Method = "PUT" ∨ req.Method = "DELETE" ∨
       req.Method = "PATCH" ∨ req.Method = "HEAD" ∨ req.Method = "OPTIONS" ∨
       req.Method = "CONNECT" ∨ req.Method = "TRACE")) ∧
    (∀ req : HTTPRecord, req.Method = "PRI" ∨ req.Method = "" ∨ req.Method = "get" →
      validMethod req = false) := by
  constructor
  · intro req
    rw [validMethod_eq_true_iff]
    simp
  · intro req h
    cases hv : validMethod req with
    | false => rfl
    | true =>
      have hm := (validMethod_eq_true_iff req).mp hv
      rcases h with h | h | h <;> rw [h] at hm <;> simp at hm

/-- C7 at the inputs of `Test_validMethod`: the nine methods are valid, `PRI` is not. -/
theorem validMethod_closed_set_witness :
    (∀ m ∈ ["GET", "POST", "PUT", "DELETE", "PATCH", "HEAD", "OPTIONS", "CONNECT", "TRACE"],
      validMethod { emptyHTTPRequest.Record with Method := m } = true) ∧
    validMethod { emptyHTTPRequest.Record with Method := "PRI" } = false ∧
    validMethod { emptyHTTPRequest.Record with Method := "" } = false :=
  ⟨fun m hm => (validMethod_closed_set.1 _).mpr (by simpa using hm),
   validMethod_closed_set.2 _ (Or.inl rfl),
   validMethod_closed_set.2 _ (Or.inr (Or.inl rfl))⟩

theorem http2ClientPreface_bytes :
    http2ClientPreface = "PRI * HTTP/2.0\r\n\r\nSM\r\n\r\n".toList.map Char.toNat := by
  decide

theorem ParseRequest_of_invalid (rd : Nat → List Nat → Except String HTTPRecord)
    (msg : List Nat) (req : HTTPRecord) (hread : rd h1ReaderBufSize msg = .ok req)
    (hm : validMethod req = false) :
    ParseRequest rd msg = ([], some ("invalid http method. got: " ++ req.Method)) := by
  simp [ParseRequest, hread, hm]

theorem ParseRequest_records_valid (rd : Nat → List Nat → Except String HTTPRecord)
    (msg : List Nat) : ∀ r ∈ (ParseRequest rd msg).1, validMethod r.Record = true := by
  intro r hr
  unfold ParseRequest at hr
  cases hread : rd h1ReaderBufSize msg with
  | error e => simp [hread] at hr
  | ok req =>
    cases hv : validMethod req with
    | false => simp [hread, hv] at hr
    | true =>
      simp [hread, hv] at hr
      subst hr
      exact hv

/-- C8: whenever the head of `msg` is read as a request whose method is outside
GET, POST, PUT, DELETE, PATCH, HEAD, OPTIONS, CONNECT, TRACE, `ParseRequest` returns
the error `invalid http method. got: <method>` and no record; the HTTP/2 client
preface, which is read as method `PRI` if it is read at all, is rejected; and
every record `ParseRequest` returns has a method of the set. `http.ReadRequest` is
the parameter `rd`. -/
theorem ParseRequest_rejects_invalid_method :
    (∀ (rd : Nat → List Nat → Except String HTTPRecord) (msg : List Nat) (req : HTTPRecord),
      rd h1ReaderBufSize msg = .ok req →
      req.Method ∉ ["GET", "POST", "PUT", "DELETE", "PATCH", "HEAD", "OPTIONS", "CONNECT", "TRACE"] →
      ParseRequest rd msg = ([], some ("invalid http method. got: " ++ req.Method))) ∧
    (∀ rd : Nat → List Nat → Except String HTTPRecord,
      (∀ req, rd h1ReaderBufSize http2ClientPreface = .ok req → req.Method = "PRI") →
      (ParseRequest rd http2ClientPreface).1 = [] ∧
      (ParseRequest rd http2ClientPreface).2 ≠ none) ∧
    (∀ (rd : Nat → List Nat → Except String HTTPRecord) (msg : List Nat),
      ∀ r ∈ (ParseRequest rd msg).1,
        r.Record.Method ∈
          ["GET", "POST", "PUT", "DELETE", "PATCH", "HEAD", "OPTIONS", "CONNECT", "TRACE"]) := by
  refine ⟨?_, ?_, ?_⟩
  · intro rd msg req hread hm
    apply ParseRequest_of_invalid rd msg req hread
    cases hv : validMethod req with
    | false => rfl
    | true => exact absurd ((validMethod_eq_true_iff req).mp hv) hm
  · intro rd hpri
    cases hread : rd h1ReaderBufSize http2ClientPreface with
    | error e => simp [ParseRequest, hread]
    | ok req =>
      have hm : req.Method = "PRI" := hpri req hread
      have hv : validMethod req = false := by
        cases hv : validMethod req with
        | false => rfl
        | true =>
          have h := (validMethod_eq_true_iff req).mp hv
          rw [hm] at h
          simp at h
      rw [ParseRequest_of_invalid rd _ req hread hv]
      simp
  · intro rd msg r hr
    exact (validMethod_eq_true_iff r.Record).mp (ParseRequest_records_valid rd msg r hr)

/-- C8 at concrete inputs: with a reader that frames the HTTP/2 client preface as
the test "HTTP/2 Preface" does, `ParseRequest` rejects the preface with the
invalid-method error; and a reader that frames a `GET` yields one `GET` record. -/
theorem ParseRequest_rejects_invalid_method_witness :
    ParseRequest prefaceOnlyReader http2ClientPreface
      = ([], some "invalid http method. got: PRI") ∧
    ((ParseRequest prefaceOnlyReader http2ClientPreface).1 = [] ∧
      (ParseRequest prefaceOnlyReader http2ClientPreface).2 ≠ none) ∧
    (∀ r ∈ (ParseRequest getOnlyReader [71, 69, 84]).1,
      r.Record.Method ∈
        ["GET", "POST", "PUT", "DELETE", "PATCH", "HEAD", "OPTIONS", "CONNECT", "TRACE"]) ∧
    (ParseRequest getOnlyReader [71, 69, 84]).1.length = 1 :=
  ⟨ParseRequest_rejects_invalid_method.1 prefaceOnlyReader http2ClientPreface
      { Proto := "HTTP/2.0", Method := "PRI", RequestURI := "*", Header := some [], Body := [] }
      (by simp [prefaceOnlyReader]) (by decide),
   ParseRequest_rejects_invalid_method.2.1 prefaceOnlyReader (by
      intro req h
      simp only [prefaceOnlyReader, if_true] at h
      cases h
      rfl),
   ParseRequest_rejects_invalid_method.2.2 getOnlyReader [71, 69, 84],
   by simp [ParseRequest, getOnlyReader, validMethod]⟩

/-! ## Conversion to protobuf -/

theorem foldl_append_entries (k : String) (vs : List String) (res : List pb.HTTPHeader) :
    vs.foldl (fun acc v => acc ++ [({ Key := k, Value := v } : pb.HTTPHeader)]) res
      = res ++ vs.map (fun v => ({ Key := k, Value := v } : pb.HTTPHeader)) := by
  induction vs generalizing res with
  | nil => simp
  | cons v vs ih => simp [ih]

theorem foldl_header_entries (h : List (String × List String)) (res : List pb.HTTPHeader) :
    h.foldl
        (fun res kv => kv.2.foldl
          (fun acc v => acc ++ [({ Key := kv.1, Value := v } : pb.HTTPHeader)]) res) res
      = res ++ (h.map (fun kv =>
          kv.2.map (fun v => ({ Key := kv.1, Value := v } : pb.HTTPHeader)))).flatten := by
  induction h generalizing res with
  | nil => simp
  | cons kv h ih =>
    simp only [List.foldl_cons, List.map_cons, List.flatten_cons]
    rw [foldl_append_entries, ih, List.append_assoc]

theorem toProtobufHeader_some (h : List (String × List String)) :
    toProtobufHeader (some h)
      = some (h.map (fun kv =>
          kv.2.map (fun v => ({ Key := kv.1, Value := v } : pb.HTTPHeader)))).flatten := by
  simp only [toProtobufHeader, foldl_header_entries, List.nil_append]

/-- C11: for every HTTPRequest record `r`, `r.Protobuf()` is an HTTP request message
whose `Protocol` is `r.Record.Proto`, whose `Method` is `r.Record.Method`, whose
`Url` is `r.Record.RequestURI` and whose `Headers` are nil when the header map is
nil and otherwise hold exactly one `(key, value)` entry for each value of each key
of the map, in the order the map is ranged over; no field depends on the body. -/
theorem Protobuf_records_head (r : HTTPRequest) :
    r.Protobuf.Record.Http.Protocol = r.Record.Proto ∧
    r.Protobuf.Record.Http.Method = r.Record.Method ∧
    r.Protobuf.Record.Http.Url = r.Record.RequestURI ∧
    (r.Record.Header = none → r.Protobuf.Record.Http.Headers = none) ∧
    (∀ h, r.Record.Header = some h →
      ∃ hs, r.Protobuf.Record.Http.Headers = some hs ∧
        hs = (h.map (fun kv =>
          kv.2.map (fun v => ({ Key := kv.1, Value := v } : pb.HTTPHeader)))).flatten ∧
        hs.length = (h.map (fun kv => kv.2.length)).sum ∧
        (∀ e : pb.HTTPHeader, e ∈ hs ↔ ∃ kv ∈ h, e.Key = kv.1 ∧ e.Value ∈ kv.2)) ∧
    (∀ body : List Nat,
      HTTPRequest.Protobuf { Record := { r.Record with Body := body } } = r.Protobuf) := by
  refine ⟨rfl, rfl, rfl, ?_, ?_, fun _ => rfl⟩
  · intro hnil
    simp [HTTPRequest.Protobuf, hnil, toProtobufHeader]
  · intro h hsome
    refine ⟨_, ?_, rfl, ?_, ?_⟩
    · simp only [HTTPRequest.Protobuf, hsome, toProtobufHeader_some]
    · simp only [List.length_flatten, List.map_map]
      congr 1
      apply List.map_congr_left
      intro kv _
      simp
    · intro e
      simp only [List.mem_flatten, List.mem_map]
      constructor
      · rintro ⟨l, ⟨kv, hkv, rfl⟩, he⟩
        simp only [List.mem_map] at he
        obtain ⟨v, hv, rfl⟩ := he
        exact ⟨kv, hkv, rfl, hv⟩
      · rintro ⟨kv, hkv, hk, hv⟩
        refine ⟨_, ⟨kv, hkv, rfl⟩, ?_⟩
        simp only [List.mem_map]
        refine ⟨e.Value, hv, ?_⟩
        cases e
        simp_all

/-- C11 at a concrete record: one entry per header value, and the same message
whatever the body. -/
theorem Protobuf_records_head_witness :
    sampleHTTPRequest.Protobuf
      = { Record := { Http := {
            Protocol := "HTTP/1.1", Method := "POST", Url := "/test/url",
            Headers := some [{ Key := "User-Agent", Value := "test-clinet/1.1" },
                             { Key := "Accept", Value := "a" },
                             { Key := "Accept", Value := "b" }] } } } ∧
    emptyHTTPRequest.Protobuf.Record.Http.Headers = none ∧
    HTTPRequest.Protobuf { Record := { sampleHTTPRequest.Record with Body := [] } }
      = sampleHTTPRequest.Protobuf :=
  ⟨by decide,
   (Protobuf_records_head emptyHTTPRequest).2.2.2.1 rfl,
   (Protobuf_records_head sampleHTTPRequest).2.2.2.2.2 []⟩

/-! ## Shape of the parse results -/

/-- C12: for every byte slice `msg`, `ParseRequest`, and likewise `ParseResponse`,
returns either an error together with the nil list, or no error together with a
list of exactly one record; it never returns an empty list without an error, so
the first record exists whenever the error is nil. `http.ReadRequest` and
`http.ReadResponse` are the parameters `rd` and `rs`. -/
theorem Parse_error_or_single_record :
    (∀ (rd : Nat → List Nat → Except String HTTPRecord) (msg : List Nat),
      (((ParseRequest rd msg).2 ≠ none ∧ (ParseRequest rd msg).1 = []) ∨
        ((ParseRequest rd msg).2 = none ∧ ∃ r, (ParseRequest rd msg).1 = [r])) ∧
      ((ParseRequest rd msg).2 = none → ∃ r, (ParseRequest rd msg).1[0]? = some r)) ∧
    (∀ (rs : Nat → List Nat → Except String HTTPRespRecord) (msg : List Nat),
      (((ParseResponse rs msg).2 ≠ none ∧ (ParseResponse rs msg).1 = []) ∨
        ((ParseResponse rs msg).2 = none ∧ ∃ r, (ParseResponse rs msg).1 = [r])) ∧
      ((ParseResponse rs msg).2 = none → ∃ r, (ParseResponse rs msg).1[0]? = some r)) := by
  constructor
  · intro rd msg
    unfold ParseRequest
    cases hread : rd h1ReaderBufSize msg with
    | error e => simp
    | ok req => cases hv : validMethod req <;> simp [hv]
  · intro rs msg
    unfold ParseResponse
    cases hread : rs h1ReaderBufSize msg with
    | error e => simp
    | ok resp => simp

/-- C12 at concrete inputs: a read error, an invalid method, an accepted request,
a failed and an accepted response. -/
theorem Parse_error_or_single_record_witness :
    ParseRequest prefaceOnlyReader [71, 69, 84] = ([], some "malformed HTTP request") ∧
    ParseRequest prefaceOnlyReader http2ClientPreface
      = ([], some "invalid http method. got: PRI") ∧
    (∃ r, (ParseRequest getOnlyReader [71, 69, 84]).1[0]? = some r) ∧
    ParseResponse okOnlyRespReader [] = ([], some "unexpected EOF") ∧
    (∃ r, (ParseResponse okOnlyRespReader [72, 84, 84, 80]).1[0]? = some r) :=
  ⟨by decide, by decide,
   (Parse_error_or_single_record.1 getOnlyReader [71, 69, 84]).2 (by decide),
   by decide,
   (Parse_error_or_single_record.2 okOnlyRespReader [72, 84, 84, 80]).2 (by decide)⟩

/-! ## The queues never hold two sides of one SockKey -/

theorem step_keys_disjoint (m : HTTPMatcher) (c : Call)
    (h : ∀ r ∈ m.reqQueue, ∀ s ∈ m.respQueue, r.SockKey ≠ s.SockKey) :
    ∀ r ∈ (m.step c).2.reqQueue, ∀ s ∈ (m.step c).2.respQueue, r.SockKey ≠ s.SockKey := by
  cases c with
  | request r0 =>
    have hmem := scanRemove_mem (fun e : Response => decide (e.SockKey = r0.SockKey)) m.respQueue
    have hall := scanRemove_none_all (fun e : Response => decide (e.SockKey = r0.SockKey))
      m.respQueue
    simp only [HTTPMatcher.step, MatchRequest_eq]
    rcases hs : scanRemove (fun e : Response => decide (e.SockKey = r0.SockKey)) m.respQueue
      with ⟨o, q⟩
    rw [hs] at hmem hall
    cases o with
    | none =>
      intro r hr s hsq
      have hs1 : s ∈ m.respQueue := hmem s hsq
      rcases List.mem_append.mp hr with hr | hr
      · exact h r hr s hs1
      · simp only [List.mem_singleton] at hr
        subst hr
        have := hall rfl s hs1
        simp only [decide_eq_false_iff_not] at this
        exact fun heq => this heq.symm
    | some R =>
      intro r hr s hsq
      exact h r hr s (hmem s hsq)
  | response s0 =>
    have hmem := scanRemove_mem (fun e : Request => decide (e.SockKey = s0.SockKey)) m.reqQueue
    have hall := scanRemove_none_all (fun e : Request => decide (e.SockKey = s0.SockKey))
      m.reqQueue
    simp only [HTTPMatcher.step, MatchResponse_eq]
    rcases hs : scanRemove (fun e : Request => decide (e.SockKey = s0.SockKey)) m.reqQueue
      with ⟨o, q⟩
    rw [hs] at hmem hall
    cases o with
    | none =>
      intro r hr s hsq
      have hr1 : r ∈ m.reqQueue := hmem r hr
      rcases List.mem_append.mp hsq with hsq | hsq
      · exact h r hr1 s hsq
      · simp only [List.mem_singleton] at hsq
        subst hsq
        have := hall rfl r hr1
        simpa using this
    | some Q =>
      intro r hr s hsq
      exact h r (hmem r hr) s hsq

theorem run_keys_disjoint (cs : List Call) : ∀ m : HTTPMatcher,
    (∀ r ∈ m.reqQueue, ∀ s ∈ m.respQueue, r.SockKey ≠ s.SockKey) →
    ∀ r ∈ (m.run cs).2.reqQueue, ∀ s ∈ (m.run cs).2.respQueue, r.SockKey ≠ s.SockKey := by
  induction cs with
  | nil => intro m h; simpa [HTTPMatcher.run] using h
  | cons c cs ih =>
    intro m h
    simpa [HTTPMatcher.run] using ih (m.step c).2 (step_keys_disjoint m c h)

theorem step_queue_keys (k : SockKey) (m : HTTPMatcher) (c : Call) (hc : c.SockKey = k)
    (hq : (∀ r ∈ m.reqQueue, r.SockKey = k) ∧ (∀ s ∈ m.respQueue, s.SockKey = k)) :
    (∀ r ∈ (m.step c).2.reqQueue, r.SockKey = k) ∧
    (∀ s ∈ (m.step c).2.respQueue, s.SockKey = k) := by
  cases c with
  | request r0 =>
    have hmem := scanRemove_mem (fun e : Response => decide (e.SockKey = r0.SockKey)) m.respQueue
    simp only [HTTPMatcher.step, MatchRequest_eq]
    rcases hs : scanRemove (fun e : Response => decide (e.SockKey = r0.SockKey)) m.respQueue
      with ⟨o, q⟩
    rw [hs] at hmem
    cases o with
    | none =>
      refine ⟨?_, fun s hsq => hq.2 s (hmem s hsq)⟩
      intro r hr
      rcases List.mem_append.mp hr with hr | hr
      · exact hq.1 r hr
      · simp only [List.mem_singleton] at hr
        subst hr
        exact hc
    | some R => exact ⟨hq.1, fun s hsq => hq.2 s (hmem s hsq)⟩
  | response s0 =>
    have hmem := scanRemove_mem (fun e : Request => decide (e.SockKey = s0.SockKey)) m.reqQueue
    simp only [HTTPMatcher.step, MatchResponse_eq]
    rcases hs : scanRemove (fun e : Request => decide (e.SockKey = s0.SockKey)) m.reqQueue
      with ⟨o, q⟩
    rw [hs] at hmem
    cases o with
    | none =>
      refine ⟨fun r hr => hq.1 r (hmem r hr), ?_⟩
      intro s hsq
      rcases List.mem_append.mp hsq with hsq | hsq
      · exact hq.2 s hsq
      · simp only [List.mem_singleton] at hsq
        subst hsq
        exact hc
    | some Q => exact ⟨fun r hr => hq.1 r (hmem r hr), hq.2⟩

theorem run_queue_keys (k : SockKey) (cs : List Call) : ∀ m : HTTPMatcher,
    (∀ c ∈ cs, c.SockKey = k) →
    ((∀ r ∈ m.reqQueue, r.SockKey = k) ∧ (∀ s ∈ m.respQueue, s.SockKey = k)) →
    (∀ r ∈ (m.run cs).2.reqQueue, r.SockKey = k) ∧
    (∀ s ∈ (m.run cs).2.respQueue, s.SockKey = k) := by
  induction cs with
  | nil => intro m _ hq; simpa [HTTPMatcher.run] using hq
  | cons c cs ih =>
    intro m hk hq
    have hstep := step_queue_keys k m c (hk c (List.mem_cons_self _ _)) hq
    simpa [HTTPMatcher.run] using
      ih (m.step c).2 (fun d hd => hk d (List.mem_cons_of_mem _ hd)) hstep

/-- C13: in every state reached from `NewHTTPMatcher()` by a sequence of
`MatchRequest`/`MatchResponse` calls, no request of `reqQueue` has the SockKey of
a response of `respQueue`; hence, when all messages share one SockKey, at most
one of the two queues is non-empty. -/
theorem queues_never_share_a_SockKey (cs : List Call) :
    (∀ r ∈ (NewHTTPMatcher.run cs).2.reqQueue, ∀ s ∈ (NewHTTPMatcher.run cs).2.respQueue,
      r.SockKey ≠ s.SockKey) ∧
    (∀ k : SockKey, (∀ c ∈ cs, c.SockKey = k) →
      (NewHTTPMatcher.run cs).2.reqQueue = [] ∨ (NewHTTPMatcher.run cs).2.respQueue = []) := by
  have hinv := run_keys_disjoint cs NewHTTPMatcher (by simp [NewHTTPMatcher])
  refine ⟨hinv, ?_⟩
  intro k hk
  have hkeys := run_queue_keys k cs NewHTTPMatcher hk (by simp [NewHTTPMatcher])
  cases hr : (NewHTTPMatcher.run cs).2.reqQueue with
  | nil => exact Or.inl rfl
  | cons r rs =>
    cases hs : (NewHTTPMatcher.run cs).2.respQueue with
    | nil => exact Or.inr rfl
    | cons s ss =>
      exfalso
      have h1 : r ∈ (NewHTTPMatcher.run cs).2.reqQueue := by simp [hr]
      have h2 : s ∈ (NewHTTPMatcher.run cs).2.respQueue := by simp [hs]
      exact hinv r h1 s h2 ((hkeys.1 r h1).trans (hkeys.2 s h2).symm)

/-- C13 at concrete inputs: after calls of two SockKeys both queues are non-empty
but share no SockKey; after calls of one SockKey the response queue is empty. -/
theorem queues_never_share_a_SockKey_witness :
    (NewHTTPMatcher.run
        [Call.request (sampleReq 1 "/a"), Call.response (sampleResp 2 500),
         Call.request (sampleReq 1 "/b"), Call.response (sampleResp 1 200)]).2
      = { reqQueue := [sampleReq 1 "/b"], respQueue := [sampleResp 2 500] } ∧
    (∀ r ∈ (NewHTTPMatcher.run
        [Call.request (sampleReq 1 "/a"), Call.response (sampleResp 2 500),
         Call.request (sampleReq 1 "/b"), Call.response (sampleResp 1 200)]).2.reqQueue,
      ∀ s ∈ (NewHTTPMatcher.run
        [Call.request (sampleReq 1 "/a"), Call.response (sampleResp 2 500),
         Call.request (sampleReq 1 "/b"), Call.response (sampleResp 1 200)]).2.respQueue,
      r.SockKey ≠ s.SockKey) ∧
    ((NewHTTPMatcher.run
        [Call.request (sampleReq 1 "/a"), Call.request (sampleReq 1 "/b"),
         Call.response (sampleResp 1 200)]).2.reqQueue = [] ∨
     (NewHTTPMatcher.run
        [Call.request (sampleReq 1 "/a"), Call.request (sampleReq 1 "/b"),
         Call.response (sampleResp 1 200)]).2.respQueue = []) :=
  ⟨by decide,
   (queues_never_share_a_SockKey
      [Call.request (sampleReq 1 "/a"), Call.response (sampleResp 2 500),
       Call.request (sampleReq 1 "/b"), Call.response (sampleResp 1 200)]).1,
   (queues_never_share_a_SockKey
      [Call.request (sampleReq 1 "/a"), Call.request (sampleReq 1 "/b"),
       Call.response (sampleResp 1 200)]).2 { Pid := 1, Fd := 0 } (by decide)⟩

/-! ## Frame and selection of a match -/

/-- C14: when `MatchRequest(req)` returns a pair, its response `R` is the
earliest-enqueued element of `respQueue` whose SockKey equals `req.SockKey` (no
element before it has that SockKey), exactly that element is removed, the
remaining responses keep their relative order, and `reqQueue` is unchanged; when
it returns nil, `respQueue` is unchanged and `reqQueue` is the old `reqQueue` with
`req` appended at the back. The same holds for `MatchResponse` with the two queues
exchanged. -/
theorem match_frame_and_selection :
    (∀ (m : HTTPMatcher) (req : Request),
      (∀ p m2, m.MatchRequest req = (some p, m2) →
        ∃ pre R post, m.respQueue = pre ++ R :: post ∧
          (∀ x ∈ pre, x.SockKey ≠ req.SockKey) ∧ R.SockKey = req.SockKey ∧
          p = ProtoMessage.mk req R ∧
          m2.respQueue = pre ++ post ∧ m2.reqQueue = m.reqQueue) ∧
      (∀ m2, m.MatchRequest req = (none, m2) →
        m2.respQueue = m.respQueue ∧ m2.reqQueue = m.reqQueue ++ [req])) ∧
    (∀ (m : HTTPMatcher) (resp : Response),
      (∀ p m2, m.MatchResponse resp = (some p, m2) →
        ∃ pre Q post, m.reqQueue = pre ++ Q :: post ∧
          (∀ x ∈ pre, x.SockKey ≠ resp.SockKey) ∧ Q.SockKey = resp.SockKey ∧
          p = ProtoMessage.mk Q resp ∧
          m2.reqQueue = pre ++ post ∧ m2.respQueue = m.respQueue) ∧
      (∀ m2, m.MatchResponse resp = (none, m2) →
        m2.reqQueue = m.reqQueue ∧ m2.respQueue = m.respQueue ++ [resp])) := by
  constructor
  · intro m req
    have hsplit := scanRemove_some_split (fun e : Response => decide (e.SockKey = req.SockKey))
      m.respQueue
    have hall := scanRemove_none_all (fun e : Response => decide (e.SockKey = req.SockKey))
      m.respQueue
    rw [MatchRequest_eq]
    rcases hs : scanRemove (fun e : Response => decide (e.SockKey = req.SockKey)) m.respQueue
      with ⟨o, q⟩
    rw [hs] at hsplit hall
    cases o with
    | none =>
      refine ⟨fun p m2 h => by simp at h, ?_⟩
      intro m2 h
      simp only [Prod.mk.injEq, true_and] at h
      subst h
      have hq := scanRemove_none _ m.respQueue (hall rfl)
      rw [hs] at hq
      simp only [Prod.mk.injEq, true_and] at hq
      exact ⟨hq, rfl⟩
    | some R =>
      refine ⟨?_, fun m2 h => by simp at h⟩
      intro p m2 h
      simp only [Prod.mk.injEq, Option.some.injEq] at h
      obtain ⟨hp, hm⟩ := h
      subst hp
      subst hm
      obtain ⟨pre, post, hl, hpre, hR, hrest⟩ := hsplit R rfl
      exact ⟨pre, R, post, hl, fun x hx => by simpa using hpre x hx, by simpa using hR,
        rfl, hrest, rfl⟩
  · intro m resp
    have hsplit := scanRemove_some_split (fun e : Request => decide (e.SockKey = resp.SockKey))
      m.reqQueue
    have hall := scanRemove_none_all (fun e : Request => decide (e.SockKey = resp.SockKey))
      m.reqQueue
    rw [MatchResponse_eq]
    rcases hs : scanRemove (fun e : Request => decide (e.SockKey = resp.SockKey)) m.reqQueue
      with ⟨o, q⟩
    rw [hs] at hsplit hall
    cases o with
    | none =>
      refine ⟨fun p m2 h => by simp at h, ?_⟩
      intro m2 h
      simp only [Prod.mk.injEq, true_and] at h
      subst h
      have hq := scanRemove_none _ m.reqQueue (hall rfl)
      rw [hs] at hq
      simp only [Prod.mk.injEq, true_and] at hq
      exact ⟨hq, rfl⟩
    | some Q =>
      refine ⟨?_, fun m2 h => by simp at h⟩
      intro p m2 h
      simp only [Prod.mk.injEq, Option.some.injEq] at h
      obtain ⟨hp, hm⟩ := h
      subst hp
      subst hm
      obtain ⟨pre, post, hl, hpre, hQ, hrest⟩ := hsplit Q rfl
      exact ⟨pre, Q, post, hl, fun x hx => by simpa using hpre x hx, by simpa using hQ,
        rfl, hrest, rfl⟩

/-- C14 at concrete inputs: a matching request takes the earlier of two responses
of its SockKey out of the middle of `respQueue`; a request without a match is
appended to `reqQueue`; and the same for a response. -/
theorem match_frame_and_selection_witness :
    (∃ pre R post,
      [sampleResp 2 500, sampleResp 1 200, sampleResp 3 404, sampleResp 1 201]
        = pre ++ R :: post ∧
      (∀ x ∈ pre, x.SockKey ≠ (sampleReq 1 "/a").SockKey) ∧
      R.SockKey = (sampleReq 1 "/a").SockKey ∧
      ProtoMessage.mk (sampleReq 1 "/a") (sampleResp 1 200) = ProtoMessage.mk (sampleReq 1 "/a") R ∧
      [sampleResp 2 500, sampleResp 3 404, sampleResp 1 201] = pre ++ post ∧
      [sampleReq 4 "/z"] = [sampleReq 4 "/z"]) ∧
    ([sampleResp 2 500] = [sampleResp 2 500] ∧
      [sampleReq 4 "/z", sampleReq 1 "/a"] = [sampleReq 4 "/z"] ++ [sampleReq 1 "/a"]) ∧
    (∃ pre Q post,
      [sampleReq 2 "/x", sampleReq 1 "/a", sampleReq 1 "/b"] = pre ++ Q :: post ∧
      (∀ x ∈ pre, x.SockKey ≠ (sampleResp 1 200).SockKey) ∧
      Q.SockKey = (sampleResp 1 200).SockKey ∧
      ProtoMessage.mk (sampleReq 1 "/a") (sampleResp 1 200) = ProtoMessage.mk Q (sampleResp 1 200) ∧
      [sampleReq 2 "/x", sampleReq 1 "/b"] = pre ++ post ∧
      ([] : List Response) = []) :=
  ⟨(match_frame_and_selection.1
      (HTTPMatcher.mk [sampleReq 4 "/z"]
        [sampleResp 2 500, sampleResp 1 200, sampleResp 3 404, sampleResp 1 201])
      (sampleReq 1 "/a")).1
      (ProtoMessage.mk (sampleReq 1 "/a") (sampleResp 1 200))
      (HTTPMatcher.mk [sampleReq 4 "/z"] [sampleResp 2 500, sampleResp 3 404, sampleResp 1 201])
      (by decide),
   (match_frame_and_selection.1 (HTTPMatcher.mk [sampleReq 4 "/z"] [sampleResp 2 500])
      (sampleReq 1 "/a")).2
      (HTTPMatcher.mk [sampleReq 4 "/z", sampleReq 1 "/a"] [sampleResp 2 500]) (by decide),
   (match_frame_and_selection.2
      (HTTPMatcher.mk [sampleReq 2 "/x", sampleReq 1 "/a", sampleReq 1 "/b"] [])
      (sampleResp 1 200)).1
      (ProtoMessage.mk (sampleReq 1 "/a") (sampleResp 1 200))
      (HTTPMatcher.mk [sampleReq 2 "/x", sampleReq 1 "/b"] []) (by decide)⟩

end Kook
